import Mathlib

/-!
Verification development for the `buzz` interactive HTTP client.

The Go sources are shallowly embedded: strings are modelled as `List Char`
(`Str`), pure helpers (`completeFromSlice`, `getLastSymbol`, header parsing,
…) are translated function by function, and the stateful parts
(`App.SubmitRequest`, `App.restoreRequest`, `App.PrintBody`, the editor
`Edit` methods) become pure functions over explicit state structures.
External collaborators (net/url parsing, the HTTP transport, gzip, the
formatter package, the gocui view layer) are abstracted as function-valued
parameters gathered in a `World` structure; the embedded code consumes them
exactly at the points the Go code calls them.
-/

set_option maxHeartbeats 1000000

namespace Buzz

/-- Strings are modelled as lists of characters. -/
abbrev Str := List Char

/-- Convert a Lean string literal into the `Str` model. -/
def lchars (s : String) : Str :=
  s.toList

/-- Go `unicode.IsSpace` restricted to the code points Go treats as white
space in the Latin-1 range: space, tab, newline, vertical tab, form feed,
carriage return, NEL (U+0085) and NBSP (U+00A0). -/
def goIsSpace (c : Char) : Bool :=
  c = ' ' || c = '\t' || c = '\n' || c = Char.ofNat 11 || c = Char.ofNat 12 ||
    c = '\r' || c = Char.ofNat 133 || c = Char.ofNat 160

/-- Trim characters satisfying `p` from the left (Go `strings.TrimLeftFunc`). -/
def trimLeftP (p : Char → Bool) (s : Str) : Str :=
  s.dropWhile p

/-- Trim characters satisfying `p` from the right (Go `strings.TrimRightFunc`). -/
def trimRightP (p : Char → Bool) (s : Str) : Str :=
  (s.reverse.dropWhile p).reverse

/-- Go `strings.TrimRight(s, cutset)`: drop trailing characters that belong
to the cutset. -/
def trimRightChars (cut : List Char) (s : Str) : Str :=
  trimRightP (fun c => decide (c ∈ cut)) s

/-- Go `strings.TrimSpace`. -/
def trimSpace (s : Str) : Str :=
  trimRightP goIsSpace (trimLeftP goIsSpace s)

/-- Go `strings.Replace(s, string(a), string(b), -1)` for one-character
patterns, as used with `"\n"` → `"&"` in `buzz.go`. -/
def replaceChar (a b : Char) (s : Str) : Str :=
  s.map (fun c => if c = a then b else c)

/-- Go `strings.Split(s, string(sep))` for a one-character separator. -/
def splitChar (sep : Char) : Str → List Str
  | [] => [[]]
  | c :: rest =>
    match splitChar sep rest with
    | [] => [[]]
    | r :: rs => if c = sep then [] :: r :: rs else (c :: r) :: rs

/-- Split at the first occurrence of `sep` (Go `strings.SplitN(s, sep, 2)`:
`some (before, after)` when `sep` occurs, `none` otherwise). -/
def splitOnce (sep : Str) : Str → Option (Str × Str)
  | [] => none
  | c :: rest =>
    if sep.isPrefixOf (c :: rest) then some ([], (c :: rest).drop sep.length)
    else
      match splitOnce sep rest with
      | none => none
      | some (a, b) => some (c :: a, b)

/-- `editor.go` `completeFromSlice`: the candidates from `completions` that
have `str` as a proper prefix, in order; empty when `str` is empty or
`strings.TrimRight(str, " \n")` differs from `str`. -/
def completeFromSlice (str : Str) (completions : List Str) : List Str :=
  if str = [] ∨ ¬trimRightChars [' ', '\n'] str = str then []
  else completions.filter (fun comp => str.isPrefixOf comp && !(str == comp))

/-- Whether the last character of `s` belongs to `cut` (false for `[]`). -/
def lastCharIn (s : Str) (cut : List Char) : Bool :=
  match s.getLast? with
  | some c => decide (c ∈ cut)
  | none => false

/-- The character class of `editor.go`'s `symbolPattern` regexp
`[a-zA-Z0-9-]+$`. -/
def isSymbolChar (c : Char) : Bool :=
  c.isAlphanum || c = '-'

/-- `editor.go` `getLastSymbol`: the trailing run of alphanumeric/hyphen
characters of `str` (the regexp match of `[a-zA-Z0-9-]+$`). -/
def getLastSymbol (s : Str) : Str :=
  (s.reverse.takeWhile isSymbolChar).reverse

/-! ### The gocui view buffer, as seen by the editors

A buffer is the cursor line together with the cursor column; `EditWrite`
inserts at the cursor, `EditDelete(true)` deletes the character before the
cursor. -/

/-- The slice of gocui view state the editor methods manipulate: the text of
the cursor line and the cursor column within it. -/
structure EdBuffer where
  line : Str
  cursor : Nat
deriving DecidableEq

/-- gocui `View.EditWrite`: insert a character at the cursor. -/
def editWrite (b : EdBuffer) (c : Char) : EdBuffer :=
  ⟨b.line.take b.cursor ++ c :: b.line.drop b.cursor, b.cursor + 1⟩

/-- gocui `View.EditDelete(true)`: delete the character before the cursor. -/
def editDeleteBack (b : EdBuffer) : EdBuffer :=
  if b.cursor = 0 then b
  else ⟨b.line.take (b.cursor - 1) ++ b.line.drop b.cursor, b.cursor - 1⟩

/-- `n` successive `EditDelete(true)` calls (the `for range lastSymbol`
loop of `AutocompleteEditor.Edit`). -/
def editDeleteN (b : EdBuffer) : Nat → EdBuffer
  | 0 => b
  | n + 1 => editDeleteN (editDeleteBack b) n

/-- Successive `EditWrite` calls for every character of `s` (the
`for _, char := range currentCompletion` loop). -/
def editWriteAll (b : EdBuffer) (s : Str) : EdBuffer :=
  s.foldl editWrite b

/-! ### `AutocompleteEditor.Edit` -/

/-- The mutable state of `AutocompleteEditor`: the candidate list computed at
the last keystroke and whether the suggestion box is showing. -/
structure ACState where
  currentCompletions : List Str
  isAutocompleting : Bool
deriving DecidableEq

/-- `editor.go` `AutocompleteEditor.Edit`.

* `completions` is the supplied candidate function;
* `inner` is the effect of the wrapped `wuzzEditor.Edit` call for this
  keystroke on the cursor line (the inner editor is an arbitrary
  collaborator here);
* `isEnter` is `key == gocui.KeyEnter`;
* `lineErr` is whether `v.Line(cy)` returned an error (in which case the Go
  code forwards the keystroke once more and returns).

Faithfulness notes: on an accepted completion Go reads
`e.currentCompletions[0]`, which is only reached with `isAutocompleting`
set, hence with a non-empty list; the model uses `headD`.  When exactly one
candidate is produced, Go's `comps[0] = comps[0][len(lastSymbol):]` mutates
the shared backing array of `e.currentCompletions`, so the stored candidate
list becomes the suffix — the model stores the suffix directly.  The view
teardown (`closeAutocomplete` / `showAutocomplete`) only touches the popup
view and is not part of the buffer state. -/
def autocompleteEdit (completions : Str → List Str) (inner : EdBuffer → EdBuffer)
    (isEnter : Bool) (lineErr : Bool) (st : ACState) (b : EdBuffer) :
    ACState × EdBuffer :=
  let b1 := if isEnter then b else inner b
  let trimmedLine := b1.line.take b1.cursor
  if lineErr then (st, inner b1)
  else
    let lastSymbol := getLastSymbol trimmedLine
    if isEnter && st.isAutocompleting then
      let currentCompletion := st.currentCompletions.headD []
      let shouldDelete := st.currentCompletions.length != 1
      let b2 := if shouldDelete then editDeleteN b1 lastSymbol.length else b1
      (⟨st.currentCompletions, false⟩, editWriteAll b2 currentCompletion)
    else
      let b2 := if isEnter then inner b1 else b1
      let comps := completions lastSymbol
      if comps.length = 1 then
        (⟨[(comps.headD []).drop lastSymbol.length], true⟩, b2)
      else if comps.length ≠ 0 then
        (⟨comps, true⟩, b2)
      else
        (⟨comps, false⟩, b2)

/-! ### `ViewEditor.Edit` (base editor, shift-tab escape handling) -/

/-- The gocui modifier relevant to the base editor. -/
inductive GMod where
  | modNone
  | modAlt
deriving DecidableEq

/-- The keys the base editor inspects: `0` (as passed on the escape replay),
`gocui.KeyArrowDown`, and everything else collapsed to `otherKey`. -/
inductive GKey where
  | keyZero
  | arrowDown
  | otherKey
deriving DecidableEq

/-- Observable actions of `ViewEditor.Edit`: switching focus to the previous
view or forwarding a keystroke to `origEditor.Edit`. -/
inductive VEAction where
  | prevView
  | forward (key : GKey) (ch : Char) (m : GMod)
deriving DecidableEq

/-- The base editor state: whether the first byte of the shift-tab escape
sequence has been buffered. -/
structure VEState where
  backTabEscape : Bool
deriving DecidableEq

/-- `editor.go` `ViewEditor.Edit`.  Returns the new state together with the
list of actions performed, in order.  `lineErr` is whether `v.Line(cY)`
errored in the arrow-down guard (`// disable infinite down scroll`), in
which case the keystroke is swallowed. -/
def viewEditorEdit (s : VEState) (key : GKey) (ch : Char) (m : GMod)
    (lineErr : Bool) : VEState × List VEAction :=
  if s.backTabEscape then
    if ch = 'Z' then (⟨false⟩, [.prevView])
    else
      -- the buffered byte is replayed, but the source does not clear
      -- `backTabEscape` here
      if ch = '[' ∧ m = .modAlt then (⟨true⟩, [.forward .keyZero '[' .modAlt])
      else if key = .arrowDown ∧ m = .modNone ∧ lineErr then
        (s, [.forward .keyZero '[' .modAlt])
      else (s, [.forward .keyZero '[' .modAlt, .forward key ch m])
  else
    if ch = '[' ∧ m = .modAlt then (⟨true⟩, [])
    else if key = .arrowDown ∧ m = .modNone ∧ lineErr then (s, [])
    else (s, [.forward key ch m])

/-! ### HTTP header map (`net/http` `Header`)

`http.Header` is a map from canonical header names to value slices; the code
under verification only uses `Set` (single value) and `Get`, so the model is
an association list with unique canonical keys. -/

/-- A byte valid in an HTTP header field name (Go `validHeaderFieldByte`):
alphanumerics and the RFC 7230 token specials. -/
def isValidHeaderChar (c : Char) : Bool :=
  c.isAlphanum ||
    c ∈ ['!', '#', '$', '%', '&', '*', '+', '-', '.', '^', '_', '|', '~'] ||
    c = Char.ofNat 39 || c = Char.ofNat 96

/-- Character-by-character canonicalisation: upper-case at the start and
after each hyphen, lower-case elsewhere. -/
def canonAux : Bool → Str → Str
  | _, [] => []
  | up, c :: cs => (if up then c.toUpper else c.toLower) :: canonAux (c = '-') cs

/-- Go `textproto.CanonicalMIMEHeaderKey`: canonicalise a valid key, return
an invalid key unchanged. -/
def canonicalKey (s : Str) : Str :=
  if s.all isValidHeaderChar then canonAux true s else s

/-- `http.Header.Set`: replace any entry under the canonical key. -/
def headerSet (h : List (Str × Str)) (k v : Str) : List (Str × Str) :=
  h.filter (fun p => !(p.1 == canonicalKey k)) ++ [(canonicalKey k, v)]

/-- `http.Header.Get`: the value under the canonical key, `""` if absent. -/
def headerGet (h : List (Str × Str)) (k : Str) : Str :=
  ((h.find? (fun p => p.1 == canonicalKey k)).map Prod.snd).getD []

/-- The separator `": "` used by `SubmitRequest` to validate header lines. -/
def colonSpace : Str :=
  [':', ' ']

/-- The header-line loop of `App.SubmitRequest` (buzz.go lines 163-176):
skip empty lines, split every other line as `Name: Value` on the first
`": "`, `Set` it, and fail with the offending line if the split does not
yield two parts. -/
def processHeaders (h : List (Str × Str)) : List Str → Except Str (List (Str × Str))
  | [] => .ok h
  | line :: rest =>
    if line = [] then processHeaders h rest
    else
      match splitOnce colonSpace line with
      | none => .error line
      | some (name, val) => processHeaders (headerSet h name val) rest

/-! ### Formatter capability and configuration -/

/-- The `formatter.ResponseFormatter` capability, as the embedded code
consumes it. -/
structure Formatter where
  title : Str
  searchable : Bool
  format : List Nat → Except Str Str
  search : Str → List Nat → Except Str (List Str)

/-- Response bytes decoded as characters (for the default text formatter). -/
def bytesToChars (bs : List Nat) : Str :=
  bs.map Char.ofNat

/-- Whether `pat` occurs in `s` as a contiguous substring. -/
def strContains (s pat : Str) : Bool :=
  (splitOnce pat s).isSome

/-- Modelled from the spec: `DEFAULT_FORMATTER` is the plain-text formatter
(`formatter.TextFormatter`) from this repository's `formatter` package,
which is not under `src/`; per the spec it is searchable and is the fallback
used by `PrintBody` when context-specific search is disabled.  Its rendering
is modelled as the identity on the decoded bytes and its search as a
line-grep; no claim inspects its output. -/
def DEFAULT_FORMATTER : Formatter :=
  ⟨lchars (r" [text]"), true,
   fun bs => .ok (bytesToChars bs),
   fun q bs => .ok ((splitChar '\n' (bytesToChars bs)).filter (fun ln => strContains ln q))⟩

/-- The slice of `config.Config` the embedded code reads
(`General.ContextSpecificSearch`; `PreserveScrollPosition` only affects the
scroll origin, which is not part of the buffer model). -/
structure Config where
  contextSpecificSearch : Bool
deriving DecidableEq

/-! ### Requests, application state -/

/-- `buzz.go` `Request` (the `Duration` field carries wall-clock time and is
omitted from the model). -/
structure Request where
  url : Str
  method : Str
  getParams : Str
  data : Str
  headers : Str
  responseHeaders : Str
  rawResponseBody : Option (List Nat)
  contentType : Str
  formatter : Formatter

/-- The application state: the text of each editable/output view buffer
(`getViewValue` applies `strings.TrimSpace` when reading them), the current
popup, the history store with its cursor, and the loaded configuration. -/
structure AppState where
  url_buf : Str
  method_buf : Str
  getParams_buf : Str
  data_buf : Str
  headers_buf : Str
  responseHeaders_buf : Str
  responseBody_buf : Str
  search_buf : Str
  currentPopup : Str
  history : List Request
  historyIndex : Nat
  config : Config

/-! ### `App.PrintBody` -/

/-- The `-----`-separated search-result listing written by `PrintBody`. -/
def joinSearchResults (results : List Str) : Str :=
  (results.map (fun res => lchars (r"-----") ++ '\n' :: res ++ ['\n'])).flatten

/-- The pure rendering step of `App.PrintBody` for one history entry:
`none` when the entry has no raw response body (the view is left alone),
otherwise the new text of the response-body view.  Follows the Go control
flow: plain formatting when the search text is empty or the formatter is not
searchable; otherwise search, falling back to `DEFAULT_FORMATTER` when
context-specific search is disabled, with distinct texts for search errors
and zero results. -/
def renderResponse (cfg : Config) (searchText : Str) (rq : Request) : Option Str :=
  match rq.rawResponseBody with
  | none => none
  | some bytes =>
    if searchText = [] ∨ rq.formatter.searchable = false then
      match rq.formatter.format bytes with
      | .ok txt => some txt
      | .error e => some (lchars (r"Error: cannot decode response body: ") ++ e)
    else
      let fmtr := if cfg.contextSpecificSearch then rq.formatter else DEFAULT_FORMATTER
      match fmtr.search searchText bytes with
      | .error e => some (lchars (r"Search error: ") ++ e)
      | .ok results =>
        if results = [] then some (lchars (r"Error: no results"))
        else some (joinSearchResults results)

/-- `App.PrintBody`: a no-op when the history is empty or the displayed
entry has no raw body; otherwise re-render the response-body view from the
stored raw body.  (Go indexes `a.history[a.historyIndex]` unchecked; the
model returns the state unchanged on an out-of-range index, and the C10
invariant shows that branch is unreachable.) -/
def printBody (s : AppState) : AppState :=
  if s.history.isEmpty then s
  else
    match s.history.get? s.historyIndex with
    | none => s
    | some rq =>
      match renderResponse s.config (trimSpace s.search_buf) rq with
      | none => s
      | some t => { s with responseBody_buf := t }

/-! ### `App.SubmitRequest`

The external collaborators the submit pipeline calls are gathered in a
`World`; the pipeline itself (parsing order, error messages, what is sent,
when history is appended) is the embedded code. -/

/-- The body handed to `http.NewRequest`: a text body or assembled multipart
bytes. -/
inductive BodyData where
  | textBody (s : Str)
  | bytesBody (b : List Nat)
deriving DecidableEq

/-- Result of the multipart-assembly block (buzz.go lines 190-228):
`parseErr` for a `url.ParseQuery` failure (silently returned), `fileErr`
for a failed `os.Open` of an `@file` value (reported in the view), and
`otherErr` for the remaining silently-returned writer errors. -/
inductive MPResult where
  | ok (b : List Nat)
  | parseErr (e : Str)
  | fileErr (e : Str)
  | otherErr
deriving DecidableEq

/-- Outcome of the body-building stage. -/
inductive BodyOutcome where
  | built (b : Option BodyData)
  | mpParseError (e : Str)
  | mpFileError (e : Str)
  | mpOtherError
deriving DecidableEq

/-- The request that reaches `CLIENT.Do`: method, final URL, `Host`
override, header map and body. -/
structure SentRequest where
  method : Str
  url : Str
  host : Str
  headers : List (Str × Str)
  body : Option BodyData

/-- The response produced by `CLIENT.Do`, as far as the pipeline reads it:
status code, declared content type and encoding, and the body bytes.  The
full header/trailer maps only feed the abstract `renderHeaders`
collaborator. -/
structure HttpResponse where
  statusCode : Nat
  contentType : Str
  contentEncoding : Str
  body : List Nat

/-- The external collaborators of the submit pipeline.  `parseUrl` and
`parseQuery` are `net/url` parsing; `finalUrl`/`mergedQuery` are
`u.String()` and `u.RawQuery` after the query merge of lines 147-154;
`buildMultipart` is the multipart assembly including file I/O; `newReq` is
`http.NewRequest`; `doRequest` is `CLIENT.Do`; `gunzip` is
`gzip.NewReader` + read; `readAll` is `io.ReadAll`; `mkFormatter` is
`formatter.New`; `renderHeaders` is the status line plus
`writeSortedHeaders` over headers and trailers. -/
structure World where
  parseUrl : Str → Except Str Unit
  parseQuery : Str → Except Str Unit
  finalUrl : Str → Str → Str
  mergedQuery : Str → Str → Str
  buildMultipart : Str → MPResult
  newReq : Str → Str → Option BodyData → Except Str Unit
  doRequest : SentRequest → Except Str HttpResponse
  gunzip : List Nat → Except Str (List Nat)
  readAll : List Nat → Except Str (List Nat)
  mkFormatter : Config → Str → Formatter
  renderHeaders : HttpResponse → Str

/-- How `SubmitRequest` terminated, one constructor per `return` path. -/
inductive SubmitOutcome where
  | urlError (e : Str)
  | queryError (e : Str)
  | invalidHeader (line : Str)
  | mpParseError (e : Str)
  | mpFileError (e : Str)
  | mpOtherError
  | requestError (e : Str)
  | transportError (e : Str)
  | gzipError (e : Str)
  | success
deriving DecidableEq

/-- Result of a submit: the new application state, the outcome, and the
request handed to `CLIENT.Do` (`none` when `Do` was never reached). -/
structure SubmitResult where
  state : AppState
  outcome : SubmitOutcome
  sent : Option SentRequest

/-- Methods that carry a body (`POST`/`PUT`/`PATCH`, buzz.go line 181). -/
def isBodiedMethod (m : Str) : Bool :=
  m == lchars (r"POST") || m == lchars (r"PUT") || m == lchars (r"PATCH")

/-- The `Content-Type` header name. -/
def CT_KEY : Str :=
  lchars (r"Content-Type")

/-- The multipart content type checked at line 184. -/
def MULTIPART_CT : Str :=
  lchars (r"multipart/form-data")

/-- The URL-form-encoded content type checked at line 185. -/
def URLENC_CT : Str :=
  lchars (r"application/x-www-form-urlencoded")

/-- The body-building stage (buzz.go lines 178-230): no body for non-bodied
methods; for bodied methods, multipart assembly when `Content-Type` is
`multipart/form-data`, otherwise the raw body text with newlines replaced by
`&` exactly when `Content-Type` is `application/x-www-form-urlencoded`. -/
def buildBody (w : World) (hdrs : List (Str × Str)) (method dataText : Str) :
    BodyOutcome :=
  if isBodiedMethod method then
    if headerGet hdrs CT_KEY = MULTIPART_CT then
      match w.buildMultipart (replaceChar '\n' '&' dataText) with
      | .ok bs => .built (some (.bytesBody bs))
      | .parseErr e => .mpParseError e
      | .fileErr e => .mpFileError e
      | .otherErr => .mpOtherError
    else if headerGet hdrs CT_KEY = URLENC_CT then
      .built (some (.textBody (replaceChar '\n' '&' dataText)))
    else
      .built (some (.textBody dataText))
  else .built none

/-- The `User-Agent` key set to the empty value before the header loop. -/
def USER_AGENT_KEY : Str :=
  lchars (r"User-Agent")

/-- The `Host` key read for the `req.Host` override. -/
def HOST_KEY : Str :=
  lchars (r"Host")

/-- `App.SubmitRequest` (buzz.go lines 115-330) as a state transformer.

The response views are cleared up front; then, in source order: URL parse,
GET-parameter parse, header validation, body building, `http.NewRequest`,
`CLIENT.Do`, gzip decompression, `io.ReadAll` (whose error leaves
`RawResponseBody` nil but does not abort), history append with cursor move,
and rendering (`PrintBody` plus the response-headers view).  Every `return`
before the history append leaves the history and its cursor untouched.  The
`Sending request..` popup and its teardown only touch popup views and are
not modelled. -/
def submitRequest (w : World) (s0 : AppState) : SubmitResult :=
  let s := { s0 with responseBody_buf := [], responseHeaders_buf := [] }
  let urlText := trimSpace s0.url_buf
  match w.parseUrl urlText with
  | .error e =>
    ⟨{ s with responseBody_buf := lchars (r"URL parse error: ") ++ e }, .urlError e, none⟩
  | .ok _ =>
    let paramsText := replaceChar '\n' '&' (trimSpace s0.getParams_buf)
    match w.parseQuery paramsText with
    | .error e =>
      ⟨{ s with responseBody_buf := lchars (r"Invalid GET parameters: ") ++ e },
       .queryError e, none⟩
    | .ok _ =>
      let method := trimSpace s0.method_buf
      let headersText := trimSpace s0.headers_buf
      match processHeaders (headerSet [] USER_AGENT_KEY []) (splitChar '\n' headersText) with
      | .error line =>
        ⟨{ s with responseBody_buf := lchars (r"Invalid header: ") ++ line },
         .invalidHeader line, none⟩
      | .ok hdrs =>
        let dataText := trimSpace s0.data_buf
        match buildBody w hdrs method dataText with
        | .mpParseError e => ⟨s, .mpParseError e, none⟩
        | .mpFileError e =>
          ⟨{ s with responseBody_buf := lchars (r"Error: ") ++ e }, .mpFileError e, none⟩
        | .mpOtherError => ⟨s, .mpOtherError, none⟩
        | .built bodyOpt =>
          match w.newReq method (w.finalUrl urlText paramsText) bodyOpt with
          | .error e =>
            ⟨{ s with responseBody_buf := lchars (r"Request error: ") ++ e },
             .requestError e, none⟩
          | .ok _ =>
            let sent : SentRequest :=
              ⟨method, w.finalUrl urlText paramsText, headerGet hdrs HOST_KEY, hdrs, bodyOpt⟩
            match w.doRequest sent with
            | .error e =>
              ⟨{ s with responseBody_buf := lchars (r"Response error: ") ++ e },
               .transportError e, some sent⟩
            | .ok resp =>
              match (if resp.contentEncoding = lchars (r"gzip") then w.gunzip resp.body
                     else .ok resp.body) with
              | .error e =>
                ⟨{ s with responseBody_buf := lchars (r"Cannot uncompress response: ") ++ e },
                 .gzipError e, some sent⟩
              | .ok respBody =>
                let raw : Option (List Nat) :=
                  match w.readAll respBody with
                  | .ok bs => some bs
                  | .error _ => none
                let rq : Request :=
                  ⟨urlText, method, w.mergedQuery urlText paramsText,
                   if isBodiedMethod method then dataText else [],
                   headersText, w.renderHeaders resp, raw, resp.contentType,
                   w.mkFormatter s0.config resp.contentType⟩
                let s2 := { s with
                  history := s.history ++ [rq]
                  historyIndex := (s.history ++ [rq]).length - 1 }
                ⟨{ printBody s2 with responseHeaders_buf := w.renderHeaders resp },
                 .success, some sent⟩

/-! ### `App.restoreRequest` -/

/-- `wuzz.go` (part_000) `App.restoreRequest` (lines 1090-1117): a no-op
when `idx` is out of range; otherwise close the history popup, move the
cursor, restore the six field buffers from the stored entry via
`setViewTextAndCursor`, and re-render the stored raw body through
`PrintBody`.  The function takes no `World`: no network call can occur. -/
def restoreRequest (s : AppState) (idx : Int) : AppState :=
  if idx < 0 ∨ (s.history.length : Int) ≤ idx then s
  else
    match s.history.get? idx.toNat with
    | none => s
    | some rq =>
      printBody { s with
        currentPopup := []
        historyIndex := idx.toNat
        url_buf := rq.url
        method_buf := rq.method
        getParams_buf := rq.getParams
        data_buf := rq.data
        headers_buf := rq.headers
        responseHeaders_buf := rq.responseHeaders }

/-! ### Save/load round trip (`exportJSON` / `App.LoadRequest`)

`exportJSON` marshals the five-key `map[string]string`; `LoadRequest`
unmarshals a file into such a map and writes each present key into its view
buffer.  Go's `json.Marshal`/`json.Unmarshal` on `map[string]string` are
mutually inverse library functions; the round trip is modelled at the map
level. -/

/-- The JSON object key of the URL view (`"url"`). -/
def URL_VIEW : Str :=
  lchars (r"url")

/-- The JSON object key of the method view (`"method"`). -/
def REQUEST_METHOD_VIEW : Str :=
  lchars (r"method")

/-- The JSON object key of the GET-parameters view (`"get"`). -/
def URL_PARAMS_VIEW : Str :=
  lchars (r"get")

/-- The JSON object key of the request-data view (`"data"`). -/
def REQUEST_DATA_VIEW : Str :=
  lchars (r"data")

/-- The JSON object key of the request-headers view (`"headers"`). -/
def REQUEST_HEADERS_VIEW : Str :=
  lchars (r"headers")

/-- `buzz.go` `exportJSON` (lines 796-810): the serialised request map. -/
def exportJSON (rq : Request) : List (Str × Str) :=
  [(URL_VIEW, rq.url), (REQUEST_METHOD_VIEW, rq.method), (URL_PARAMS_VIEW, rq.getParams),
   (REQUEST_DATA_VIEW, rq.data), (REQUEST_HEADERS_VIEW, rq.headers)]

/-- Lookup in the decoded request map. -/
def mapLookup (m : List (Str × Str)) (k : Str) : Option Str :=
  (m.find? (fun p => p.1 == k)).map Prod.snd

/-- `App.LoadRequest` (buzz.go lines 332-391) after a successful read and
JSON decode: write each key present in the map into its view buffer (the
data view via `Clear` + `Fprintf`, the others via `setViewTextAndCursor`;
both set the buffer to exactly the stored text). -/
def loadRequest (m : List (Str × Str)) (s : AppState) : AppState :=
  let s1 := match mapLookup m URL_VIEW with
            | some v => { s with url_buf := v }
            | none => s
  let s2 := match mapLookup m REQUEST_METHOD_VIEW with
            | some v => { s1 with method_buf := v }
            | none => s1
  let s3 := match mapLookup m URL_PARAMS_VIEW with
            | some v => { s2 with getParams_buf := v }
            | none => s2
  let s4 := match mapLookup m REQUEST_DATA_VIEW with
            | some v => { s3 with data_buf := v }
            | none => s3
  match mapLookup m REQUEST_HEADERS_VIEW with
  | some v => { s4 with headers_buf := v }
  | none => s4

/-! ### History invariant (C10) -/

/-- `main` (buzz.go line 751): `&App{history: make([]*Request, 0, 31)}` —
empty history, zero history cursor, empty buffers except the default
method. -/
def initialApp (cfg : Config) : AppState :=
  { url_buf := []
    method_buf := lchars (r"GET")
    getParams_buf := []
    data_buf := []
    headers_buf := []
    responseHeaders_buf := []
    responseBody_buf := []
    search_buf := []
    currentPopup := []
    history := []
    historyIndex := 0
    config := cfg }

/-- The history invariant: the cursor is `0` on an empty history and a valid
index otherwise. -/
def histInvariant (s : AppState) : Prop :=
  (s.history = [] → s.historyIndex = 0) ∧
    (s.history ≠ [] → s.historyIndex < s.history.length)

/-- The operations that touch the history store: a submit (with its
collaborators) and a recall by index. -/
inductive AppOp where
  | submit (w : World)
  | recallAt (idx : Int)

/-- Apply one history-touching operation to the application state. -/
def applyOp : AppOp → AppState → AppState
  | .submit w, s => (submitRequest w s).state
  | .recallAt idx, s => restoreRequest s idx

/-! ### Concrete sample data used by the closed witness theorems -/

/-- A sample collaborator world: parsing always succeeds, the final URL is
the URL text, and the transport refuses every connection. -/
def wSample : World :=
  { parseUrl := fun _ => .ok ()
    parseQuery := fun _ => .ok ()
    finalUrl := fun u _ => u
    mergedQuery := fun _ p => p
    buildMultipart := fun _ => .otherErr
    newReq := fun _ _ _ => .ok ()
    doRequest := fun _ => .error (lchars (r"connection refused"))
    gunzip := fun b => .ok b
    readAll := fun b => .ok b
    mkFormatter := fun _ _ => DEFAULT_FORMATTER
    renderHeaders := fun _ => [] }

/-- A sample configuration. -/
def cfgSample : Config :=
  ⟨true⟩

/-- A state whose headers view holds the malformed line of the spec
scenario. -/
def sInvalidHeader : AppState :=
  { initialApp cfgSample with
    url_buf := lchars (r"http://localhost")
    headers_buf := lchars (r"BadHeaderNoColon") }

/-- A state ready for a plain GET submit. -/
def sTransport : AppState :=
  { initialApp cfgSample with url_buf := lchars (r"http://localhost") }

/-- A POST state with a URL-form-encoded content type and a two-line body. -/
def sUrlenc : AppState :=
  { initialApp cfgSample with
    url_buf := lchars (r"http://localhost")
    method_buf := lchars (r"POST")
    headers_buf := lchars (r"Content-Type: application/x-www-form-urlencoded")
    data_buf := ['a', '=', '1', '\n', 'b', '=', '2'] }

/-- The header map produced for `sUrlenc`: `User-Agent` cleared, then the
form-encoded `Content-Type`. -/
def hdrsUrlenc : List (Str × Str) :=
  headerSet (headerSet [] USER_AGENT_KEY []) CT_KEY URLENC_CT

/-- A stored request used to populate a sample history. -/
def rqSample : Request :=
  { url := lchars (r"http://localhost/one")
    method := lchars (r"GET")
    getParams := lchars (r"a=1")
    data := []
    headers := lchars (r"Accept: text/plain")
    responseHeaders := lchars (r"HTTP/1.1 200 OK")
    rawResponseBody := none
    contentType := lchars (r"text/plain")
    formatter := DEFAULT_FORMATTER }

/-- A state with one history entry. -/
def sHist : AppState :=
  { initialApp cfgSample with history := [rqSample] }

/-- A sample candidate function: the token `a` completes to `ab`. -/
def fSample : Str → List Str :=
  fun t => if t = ['a'] then [['a', 'b']] else []

/-- A sample inner editor: typing leaves the line as `a` with the cursor
after it. -/
def innerSample : EdBuffer → EdBuffer :=
  fun _ => ⟨['a'], 1⟩

/-! ## Theorems -/

/-- `strings.TrimRight` leaves `s` unchanged exactly when its last character
is outside the cutset. -/
theorem trimRightChars_eq_self_iff (cut : List Char) (s : Str) :
    trimRightChars cut s = s ↔ lastCharIn s cut = false := by
  unfold trimRightChars trimRightP lastCharIn
  rw [← List.head?_reverse]
  cases hrev : s.reverse with
  | nil =>
    have hs := List.reverse_eq_nil_iff.mp hrev
    subst hs
    simp
  | cons c t =>
    have hlen : s.length = t.length + 1 := by
      have h := congrArg List.length hrev
      simpa using h
    have hs2 : (c :: t).reverse = s := by
      rw [← hrev, List.reverse_reverse]
    by_cases hp : c ∈ cut
    · rw [List.dropWhile_cons, if_pos (by simp [hp])]
      have hfalse : ¬(t.dropWhile fun x => decide (x ∈ cut)).reverse = s := by
        intro he
        have h1 := congrArg List.length he
        have h2 : (t.dropWhile fun x => decide (x ∈ cut)).length ≤ t.length :=
          (List.dropWhile_sublist _).length_le
        simp only [List.length_reverse] at h1
        omega
      simp [hfalse, hp]
    · rw [List.dropWhile_cons]
      simp [hp, hs2]

/-- The Go filter predicate of `completeFromSlice` coincides with the
strict-prefix predicate. -/
theorem completePred_eq (str comp : Str) :
    (str.isPrefixOf comp && !(str == comp)) = decide (str <+: comp ∧ str ≠ comp) := by
  rw [Bool.eq_iff_iff]
  simp [List.isPrefixOf_iff_prefix]

/-- C1 (amended): `completeFromSlice(T, C)` is the order-preserving strict
prefix filter of `C`, and is empty whenever `T` is empty or ends in a space
or newline character (the code trims only `" \n"`, not all whitespace). -/
theorem completeFromSlice_amended (str : Str) (C : List Str) :
    completeFromSlice str C =
      if str = [] ∨ lastCharIn str [' ', '\n'] = true then []
      else C.filter (fun comp => decide (str <+: comp ∧ str ≠ comp)) := by
  unfold completeFromSlice
  have hiff := trimRightChars_eq_self_iff [' ', '\n'] str
  by_cases h0 : str = []
  · simp [h0]
  · by_cases h1 : lastCharIn str [' ', '\n'] = true
    · have hne : ¬trimRightChars [' ', '\n'] str = str := by
        intro he
        have hf := hiff.mp he
        simp [h1] at hf
      rw [if_pos (Or.inr hne), if_pos (Or.inr h1)]
    · have heq : trimRightChars [' ', '\n'] str = str :=
        hiff.mpr (by simpa using h1)
      rw [if_neg (by simp [h0, heq]), if_neg (by simp [h0, h1])]
      exact List.filter_congr (fun comp hc => completePred_eq str comp)

/-- C1 (counterexample): the token `"a\t"` ends in whitespace in Go's sense
(`unicode.IsSpace '\t'`), yet `completeFromSlice` does not return the empty
list on it, because the code only trims trailing spaces and newlines. -/
theorem completeFromSlice_whitespace_counterexample :
    goIsSpace '\t' = true ∧ (['a', '\t'] : Str).getLast? = some '\t' ∧
      completeFromSlice ['a', '\t'] [['a', '\t', 'b']] = [['a', '\t', 'b']] := by
  decide

/-- C9: with the first escape byte buffered, a following non-`Z` keystroke
replays both the buffered byte and the current input as ordinary input, but
the editor stays in the buffering state (`backTabEscape` remains set) —
whereas a following `Z` is consumed into a move-to-previous-view action and
clears the flag. -/
theorem backtab_nonZ_keeps_buffering :
    (viewEditorEdit ⟨true⟩ .otherKey 'x' .modNone false).1.backTabEscape = true ∧
    (viewEditorEdit ⟨true⟩ .otherKey 'x' .modNone false).2 =
      [.forward .keyZero '[' .modAlt, .forward .otherKey 'x' .modNone] ∧
    (viewEditorEdit ⟨true⟩ .otherKey 'Z' .modNone false).1.backTabEscape = false ∧
    (viewEditorEdit ⟨true⟩ .otherKey 'Z' .modNone false).2 = [.prevView] := by
  decide

/-- C6: exporting a request as the JSON request map and loading that map
back reproduces the URL, method, query, body and header text exactly in the
corresponding field buffers.  (The byte-level JSON encode/decode between
`exportJSON` and `LoadRequest` is Go's `encoding/json` on
`map[string]string`, a mutually inverse library pair; the round trip is
modelled at the map level.) -/
theorem export_load_round_trip (rq : Request) (s : AppState) :
    (loadRequest (exportJSON rq) s).url_buf = rq.url ∧
    (loadRequest (exportJSON rq) s).method_buf = rq.method ∧
    (loadRequest (exportJSON rq) s).getParams_buf = rq.getParams ∧
    (loadRequest (exportJSON rq) s).data_buf = rq.data ∧
    (loadRequest (exportJSON rq) s).headers_buf = rq.headers := by
  refine ⟨?_, ?_, ?_, ?_, ?_⟩ <;> rfl

/-- `getLastSymbol s` is a suffix of `s`. -/
theorem getLastSymbol_isSuffix (s : Str) : getLastSymbol s <:+ s := by
  unfold getLastSymbol
  rw [← List.reverse_prefix, List.reverse_reverse]
  exact List.takeWhile_prefix _

/-- The token is no longer than the text it was read from. -/
theorem getLastSymbol_length_le (s : Str) : (getLastSymbol s).length ≤ s.length :=
  (getLastSymbol_isSuffix s).length_le

/-- Splitting the text into the part before the token and the token. -/
theorem getLastSymbol_take_eq (s : Str) :
    s.take (s.length - (getLastSymbol s).length) ++ getLastSymbol s = s := by
  obtain ⟨pre, hpre⟩ := getLastSymbol_isSuffix s
  have hlen : pre.length = s.length - (getLastSymbol s).length := by
    have h := congrArg List.length hpre
    simp only [List.length_append] at h
    omega
  have hpre2 : s.take pre.length = pre := by
    rw [← hpre, List.take_left]
  rw [← hlen, hpre2, hpre]

/-- `n` backward deletions remove the `n` characters before the cursor. -/
theorem editDeleteN_eq (n : Nat) (b : EdBuffer) (hn : n ≤ b.cursor)
    (hwf : b.cursor ≤ b.line.length) :
    editDeleteN b n =
      ⟨b.line.take (b.cursor - n) ++ b.line.drop b.cursor, b.cursor - n⟩ := by
  induction n generalizing b with
  | zero =>
    show b = _
    simp [List.take_append_drop]
  | succ n ih =>
    obtain ⟨l, c⟩ := b
    simp only at hn hwf
    have hc : ¬c = 0 := by omega
    show editDeleteN (editDeleteBack ⟨l, c⟩) n = _
    have hb1 : editDeleteBack ⟨l, c⟩ = ⟨l.take (c - 1) ++ l.drop c, c - 1⟩ := by
      unfold editDeleteBack
      simp [hc]
    have hlenA : (l.take (c - 1)).length = c - 1 := by
      rw [List.length_take]
      omega
    have hwf1 : c - 1 ≤ (l.take (c - 1) ++ l.drop c).length := by
      simp only [List.length_append, List.length_take, List.length_drop]
      omega
    have hn1 : n ≤ c - 1 := by omega
    rw [hb1, ih ⟨l.take (c - 1) ++ l.drop c, c - 1⟩ hn1 hwf1]
    simp only [EdBuffer.mk.injEq]
    constructor
    · have hsub : c - 1 - n = c - (n + 1) := by omega
      rw [List.take_append_of_le_length (by omega), List.take_take,
          List.drop_left' hlenA]
      congr 2
      omega
    · omega

/-- Writing a string inserts it at the cursor. -/
theorem editWriteAll_eq (cs : Str) (b : EdBuffer) (hwf : b.cursor ≤ b.line.length) :
    editWriteAll b cs =
      ⟨b.line.take b.cursor ++ cs ++ b.line.drop b.cursor, b.cursor + cs.length⟩ := by
  induction cs generalizing b with
  | nil =>
    show b = _
    simp [List.take_append_drop]
  | cons ch rest ih =>
    obtain ⟨l, c⟩ := b
    simp only at hwf
    have hA : (l.take c).length = c := by
      rw [List.length_take]
      omega
    show editWriteAll (editWrite ⟨l, c⟩ ch) rest = _
    have hwf1 : (editWrite ⟨l, c⟩ ch).cursor ≤ (editWrite ⟨l, c⟩ ch).line.length := by
      show c + 1 ≤ (l.take c ++ ch :: l.drop c).length
      simp only [List.length_append, List.length_cons, List.length_take, List.length_drop]
      omega
    rw [ih (editWrite ⟨l, c⟩ ch) hwf1]
    have hfull : (l.take c ++ [ch]).length = c + 1 := by
      simp [hA]
    have h1 : (l.take c ++ ch :: l.drop c).take (c + 1) = l.take c ++ [ch] := by
      have hassoc : l.take c ++ ch :: l.drop c = (l.take c ++ [ch]) ++ l.drop c := by
        simp
      rw [hassoc, List.take_left' hfull]
    have h2 : (l.take c ++ ch :: l.drop c).drop (c + 1) = l.drop c := by
      have hassoc : l.take c ++ ch :: l.drop c = (l.take c ++ [ch]) ++ l.drop c := by
        simp
      rw [hassoc, List.drop_left' hfull]
    show EdBuffer.mk _ _ = _
    simp only [editWrite, EdBuffer.mk.injEq]
    constructor
    · rw [h1, h2]
      simp
    · simp only [List.length_cons]
      omega

/-- C7: when Enter is pressed while a suggestion is showing (state produced
by a preceding non-Enter keystroke), the suggestion is accepted and torn
down; if exactly one candidate was present at suggestion time, only the
matched suffix of that candidate is inserted at the cursor and the typed
token prefix is untouched; otherwise the typed token (one deletion per
character) is removed before the first candidate is inserted in full. -/
theorem autocomplete_enter_behavior (f : Str → List Str)
    (inner innerE : EdBuffer → EdBuffer) (st0 st1 : ACState) (b0 b1 : EdBuffer)
    (hstep : autocompleteEdit f inner false false st0 b0 = (st1, b1))
    (hwf : b1.cursor ≤ b1.line.length)
    (hshow : st1.isAutocompleting = true) :
    (autocompleteEdit f innerE true false st1 b1).1.isAutocompleting = false ∧
    ((f (getLastSymbol (b1.line.take b1.cursor))).length = 1 →
      (autocompleteEdit f innerE true false st1 b1).2 =
        ⟨b1.line.take b1.cursor ++
            ((f (getLastSymbol (b1.line.take b1.cursor))).headD []).drop
              (getLastSymbol (b1.line.take b1.cursor)).length ++
            b1.line.drop b1.cursor,
          b1.cursor +
            (((f (getLastSymbol (b1.line.take b1.cursor))).headD []).drop
              (getLastSymbol (b1.line.take b1.cursor)).length).length⟩) ∧
    ((f (getLastSymbol (b1.line.take b1.cursor))).length ≠ 1 →
      b1.line.take b1.cursor =
          b1.line.take (b1.cursor - (getLastSymbol (b1.line.take b1.cursor)).length) ++
            getLastSymbol (b1.line.take b1.cursor) ∧
      (autocompleteEdit f innerE true false st1 b1).2 =
        ⟨b1.line.take (b1.cursor - (getLastSymbol (b1.line.take b1.cursor)).length) ++
            (f (getLastSymbol (b1.line.take b1.cursor))).headD [] ++
            b1.line.drop b1.cursor,
          b1.cursor - (getLastSymbol (b1.line.take b1.cursor)).length +
            ((f (getLastSymbol (b1.line.take b1.cursor))).headD []).length⟩) := by
  have hb1 : b1 = inner b0 := by
    unfold autocompleteEdit at hstep
    simp at hstep
    split at hstep <;> (try split at hstep) <;> simp_all
  subst hb1
  have hst1 : st1 =
      (if (f (getLastSymbol ((inner b0).line.take (inner b0).cursor))).length = 1 then
        ACState.mk
          [((f (getLastSymbol ((inner b0).line.take (inner b0).cursor))).headD []).drop
            (getLastSymbol ((inner b0).line.take (inner b0).cursor)).length] true
      else if (f (getLastSymbol ((inner b0).line.take (inner b0).cursor))).length ≠ 0 then
        ACState.mk (f (getLastSymbol ((inner b0).line.take (inner b0).cursor))) true
      else ACState.mk (f (getLastSymbol ((inner b0).line.take (inner b0).cursor))) false) := by
    unfold autocompleteEdit at hstep
    simp at hstep
    split at hstep <;> (try split at hstep) <;> simp_all
  set B := inner b0 with hB
  set t := getLastSymbol (B.line.take B.cursor) with ht
  have hlc : (B.line.take B.cursor).length = B.cursor := by
    rw [List.length_take]
    omega
  by_cases hlen1 : (f t).length = 1
  · have hst : st1 = ACState.mk [((f t).headD []).drop t.length] true := by
      rw [hst1, if_pos hlen1]
    subst hst
    refine ⟨rfl, fun _ => ?_, fun hne => absurd hlen1 hne⟩
    show editWriteAll B (((f t).headD []).drop t.length) = _
    exact editWriteAll_eq _ B hwf
  · by_cases hlen0 : (f t).length = 0
    · exfalso
      have hst : st1 = ACState.mk (f t) false := by
        rw [hst1, if_neg hlen1, if_neg (by omega)]
      rw [hst] at hshow
      cases hshow
    · have hst : st1 = ACState.mk (f t) true := by
        rw [hst1, if_neg hlen1, if_pos hlen0]
      subst hst
      have hn : t.length ≤ B.cursor := by
        have h := getLastSymbol_length_le (B.line.take B.cursor)
        rw [← ht, hlc] at h
        exact h
      refine ⟨rfl, fun h1 => absurd h1 hlen1, fun _ => ⟨?_, ?_⟩⟩
      · -- the text before the cursor splits as prefix ++ token
        have h3 := getLastSymbol_take_eq (B.line.take B.cursor)
        rw [← ht, hlc, List.take_take] at h3
        have hmin : min (B.cursor - t.length) B.cursor = B.cursor - t.length := by
          omega
        rw [hmin] at h3
        exact h3.symm
      · show editWriteAll
            (if ((ACState.mk (f t) true).currentCompletions.length != 1) = true then
              editDeleteN B t.length
            else B) ((f t).headD []) = _
        rw [if_pos (by simp [hlen1])]
        rw [editDeleteN_eq t.length B hn hwf]
        have hwf2 : B.cursor - t.length ≤
            (B.line.take (B.cursor - t.length) ++ B.line.drop B.cursor).length := by
          simp only [List.length_append, List.length_take, List.length_drop]
          omega
        rw [editWriteAll_eq _ _ hwf2]
        have hlenA : (B.line.take (B.cursor - t.length)).length = B.cursor - t.length := by
          rw [List.length_take]
          omega
        show EdBuffer.mk _ _ = _
        simp only [EdBuffer.mk.injEq, and_true]
        rw [List.take_left' hlenA, List.drop_left' hlenA]

/-- If some non-empty line of the header text lacks the `": "` separator,
the header loop stops at such a line and reports it. -/
theorem processHeaders_error_of_bad (lines : List Str) :
    ∀ h0 : List (Str × Str),
      (∃ badLine, badLine ∈ lines ∧ badLine ≠ [] ∧ splitOnce colonSpace badLine = none) →
      ∃ l, l ∈ lines ∧ l ≠ [] ∧ splitOnce colonSpace l = none ∧
        processHeaders h0 lines = .error l := by
  induction lines with
  | nil =>
    rintro h0 ⟨b, hb, -, -⟩
    cases hb
  | cons a rest ih =>
    rintro h0 ⟨b, hb, hne, hbad⟩
    unfold processHeaders
    by_cases ha : a = []
    · rw [if_pos ha]
      have hbrest : b ∈ rest := by
        rcases List.mem_cons.mp hb with h | h
        · exact absurd (h.trans ha) hne
        · exact h
      obtain ⟨l, h1, h2, h3, h4⟩ := ih h0 ⟨b, hbrest, hne, hbad⟩
      exact ⟨l, List.mem_cons_of_mem _ h1, h2, h3, h4⟩
    · rw [if_neg ha]
      cases hsp : splitOnce colonSpace a with
      | none => exact ⟨a, List.mem_cons_self _ _, ha, hsp, rfl⟩
      | some nv =>
        have hbrest : b ∈ rest := by
          rcases List.mem_cons.mp hb with h | h
          · rw [h] at hbad
            rw [hbad] at hsp
            cases hsp
          · exact h
        obtain ⟨l, h1, h2, h3, h4⟩ := ih (headerSet h0 nv.1 nv.2) ⟨b, hbrest, hne, hbad⟩
        exact ⟨l, List.mem_cons_of_mem _ h1, h2, h3, h4⟩

/-- C3: if the URL and the GET parameters parse but some non-empty line of
the header text does not have the `Name: Value` shape (no `": "`
separator), the submit aborts at header validation: the outcome names such
an offending line, the response region holds the `Invalid header:` message
for it, the history store and its cursor are unchanged, and nothing is
handed to the transport. -/
theorem submit_invalid_header_aborts (w : World) (s : AppState) (badLine : Str)
    (hu : w.parseUrl (trimSpace s.url_buf) = .ok ())
    (hq : w.parseQuery (replaceChar '\n' '&' (trimSpace s.getParams_buf)) = .ok ())
    (hmem : badLine ∈ splitChar '\n' (trimSpace s.headers_buf))
    (hne : badLine ≠ [])
    (hshape : splitOnce colonSpace badLine = none) :
    ∃ line, line ∈ splitChar '\n' (trimSpace s.headers_buf) ∧ line ≠ [] ∧
      splitOnce colonSpace line = none ∧
      (submitRequest w s).outcome = .invalidHeader line ∧
      (submitRequest w s).state.responseBody_buf = lchars (r"Invalid header: ") ++ line ∧
      (submitRequest w s).state.history = s.history ∧
      (submitRequest w s).state.historyIndex = s.historyIndex ∧
      (submitRequest w s).sent = none := by
  obtain ⟨l, h1, h2, h3, h4⟩ :=
    processHeaders_error_of_bad (splitChar '\n' (trimSpace s.headers_buf))
      (headerSet [] USER_AGENT_KEY []) ⟨badLine, hmem, hne, hshape⟩
  have hres : submitRequest w s =
      ⟨{ s with responseBody_buf := lchars (r"Invalid header: ") ++ l,
                responseHeaders_buf := [] },
       .invalidHeader l, none⟩ := by
    unfold submitRequest
    simp only [hu, hq, h4]
  refine ⟨l, h1, h2, h3, ?_, ?_, ?_, ?_, ?_⟩ <;> rw [hres]

/-- C4: when the transport call `CLIENT.Do` fails, the error is written to
the response region as `Response error:` and nothing is appended to the
history store — its length and cursor are unchanged. -/
theorem submit_transport_error_preserves_history (w : World) (s : AppState)
    (hdrs : List (Str × Str)) (bodyOpt : Option BodyData) (e : Str)
    (hu : w.parseUrl (trimSpace s.url_buf) = .ok ())
    (hq : w.parseQuery (replaceChar '\n' '&' (trimSpace s.getParams_buf)) = .ok ())
    (hh : processHeaders (headerSet [] USER_AGENT_KEY [])
        (splitChar '\n' (trimSpace s.headers_buf)) = .ok hdrs)
    (hb : buildBody w hdrs (trimSpace s.method_buf) (trimSpace s.data_buf) = .built bodyOpt)
    (hn : w.newReq (trimSpace s.method_buf)
        (w.finalUrl (trimSpace s.url_buf) (replaceChar '\n' '&' (trimSpace s.getParams_buf)))
        bodyOpt = .ok ())
    (hd : w.doRequest
        ⟨trimSpace s.method_buf,
         w.finalUrl (trimSpace s.url_buf) (replaceChar '\n' '&' (trimSpace s.getParams_buf)),
         headerGet hdrs HOST_KEY, hdrs, bodyOpt⟩ = .error e) :
    (submitRequest w s).outcome = .transportError e ∧
    (submitRequest w s).state.responseBody_buf = lchars (r"Response error: ") ++ e ∧
    (submitRequest w s).state.history = s.history ∧
    (submitRequest w s).state.historyIndex = s.historyIndex := by
  have hres : submitRequest w s =
      ⟨{ s with responseBody_buf := lchars (r"Response error: ") ++ e,
                responseHeaders_buf := [] },
       .transportError e,
       some ⟨trimSpace s.method_buf,
             w.finalUrl (trimSpace s.url_buf)
               (replaceChar '\n' '&' (trimSpace s.getParams_buf)),
             headerGet hdrs HOST_KEY, hdrs, bodyOpt⟩⟩ := by
    unfold submitRequest
    simp only [hu, hq, hh, hb, hn, hd]
  refine ⟨?_, ?_, ?_, ?_⟩ <;> rw [hres]

/-- C5: for a bodied method (`POST`/`PUT`/`PATCH`) whose `Content-Type`
header is not multipart, the body handed to the transport is the raw body
text, with every newline replaced by `&` exactly when the `Content-Type` is
`application/x-www-form-urlencoded`. -/
theorem submit_urlencoded_body (w : World) (s : AppState)
    (hdrs : List (Str × Str))
    (hu : w.parseUrl (trimSpace s.url_buf) = .ok ())
    (hq : w.parseQuery (replaceChar '\n' '&' (trimSpace s.getParams_buf)) = .ok ())
    (hh : processHeaders (headerSet [] USER_AGENT_KEY [])
        (splitChar '\n' (trimSpace s.headers_buf)) = .ok hdrs)
    (hm : isBodiedMethod (trimSpace s.method_buf) = true)
    (hct : ¬headerGet hdrs CT_KEY = MULTIPART_CT)
    (hn : w.newReq (trimSpace s.method_buf)
        (w.finalUrl (trimSpace s.url_buf) (replaceChar '\n' '&' (trimSpace s.getParams_buf)))
        (some (.textBody (if headerGet hdrs CT_KEY = URLENC_CT
          then replaceChar '\n' '&' (trimSpace s.data_buf)
          else trimSpace s.data_buf))) = .ok ()) :
    (submitRequest w s).sent = some
      ⟨trimSpace s.method_buf,
       w.finalUrl (trimSpace s.url_buf) (replaceChar '\n' '&' (trimSpace s.getParams_buf)),
       headerGet hdrs HOST_KEY, hdrs,
       some (.textBody (if headerGet hdrs CT_KEY = URLENC_CT
         then replaceChar '\n' '&' (trimSpace s.data_buf)
         else trimSpace s.data_buf))⟩ := by
  have hbody : buildBody w hdrs (trimSpace s.method_buf) (trimSpace s.data_buf) =
      .built (some (.textBody (if headerGet hdrs CT_KEY = URLENC_CT
        then replaceChar '\n' '&' (trimSpace s.data_buf)
        else trimSpace s.data_buf))) := by
    unfold buildBody
    rw [hm, if_pos rfl, if_neg hct]
    by_cases hc : headerGet hdrs CT_KEY = URLENC_CT <;> simp [hc]
  unfold submitRequest
  simp only [hu, hq, hh, hbody, hn]
  split
  · rfl
  · split
    · rfl
    · rfl

/-- `PrintBody` only rewrites the response-body view. -/
theorem printBody_preserves (s : AppState) :
    (printBody s).url_buf = s.url_buf ∧
    (printBody s).method_buf = s.method_buf ∧
    (printBody s).getParams_buf = s.getParams_buf ∧
    (printBody s).data_buf = s.data_buf ∧
    (printBody s).headers_buf = s.headers_buf ∧
    (printBody s).responseHeaders_buf = s.responseHeaders_buf ∧
    (printBody s).search_buf = s.search_buf ∧
    (printBody s).currentPopup = s.currentPopup ∧
    (printBody s).config = s.config := by
  unfold printBody
  split
  · simp
  · split
    · simp
    · split <;> simp

/-- `PrintBody` never touches the history store. -/
theorem printBody_history (s : AppState) : (printBody s).history = s.history := by
  unfold printBody
  split
  · rfl
  · split
    · rfl
    · split <;> rfl

/-- `PrintBody` never moves the history cursor. -/
theorem printBody_historyIndex (s : AppState) :
    (printBody s).historyIndex = s.historyIndex := by
  unfold printBody
  split
  · rfl
  · split
    · rfl
    · split <;> rfl

/-- When the displayed entry exists, `PrintBody` re-renders its stored raw
body into the response-body view (leaving the view alone when the entry has
no raw body yet). -/
theorem printBody_render (s : AppState) (rq : Request)
    (hget : s.history.get? s.historyIndex = some rq) (hne : s.history ≠ []) :
    (printBody s).responseBody_buf =
      (renderResponse s.config (trimSpace s.search_buf) rq).getD s.responseBody_buf := by
  unfold printBody
  rw [if_neg (by simp [hne]), hget]
  cases hr : renderResponse s.config (trimSpace s.search_buf) rq <;> simp [hr]

/-- C8: `restoreRequest` with an out-of-range index is a no-op on the whole
application state; with an in-range index it restores all six field buffers
from the stored entry, sets the history cursor to the index, leaves the
history itself untouched, and re-renders the stored raw body (the function
takes no transport collaborator, so no network call is possible). -/
theorem restore_request_recall (s : AppState) (idx : Int) :
    ((idx < 0 ∨ (s.history.length : Int) ≤ idx) → restoreRequest s idx = s) ∧
    (∀ hlt : idx.toNat < s.history.length, 0 ≤ idx →
      (restoreRequest s idx).url_buf = (s.history.get ⟨idx.toNat, hlt⟩).url ∧
      (restoreRequest s idx).method_buf = (s.history.get ⟨idx.toNat, hlt⟩).method ∧
      (restoreRequest s idx).getParams_buf = (s.history.get ⟨idx.toNat, hlt⟩).getParams ∧
      (restoreRequest s idx).data_buf = (s.history.get ⟨idx.toNat, hlt⟩).data ∧
      (restoreRequest s idx).headers_buf = (s.history.get ⟨idx.toNat, hlt⟩).headers ∧
      (restoreRequest s idx).responseHeaders_buf =
        (s.history.get ⟨idx.toNat, hlt⟩).responseHeaders ∧
      (restoreRequest s idx).historyIndex = idx.toNat ∧
      (restoreRequest s idx).history = s.history ∧
      (restoreRequest s idx).responseBody_buf =
        (renderResponse s.config (trimSpace s.search_buf)
          (s.history.get ⟨idx.toNat, hlt⟩)).getD s.responseBody_buf) := by
  constructor
  · intro hoob
    unfold restoreRequest
    rw [if_pos hoob]
  · intro hlt hpos
    have hcond : ¬(idx < 0 ∨ (s.history.length : Int) ≤ idx) := by
      omega
    have hget : s.history.get? idx.toNat = some (s.history.get ⟨idx.toNat, hlt⟩) :=
      List.get?_eq_get hlt
    have hres : restoreRequest s idx =
        printBody { s with
          currentPopup := []
          historyIndex := idx.toNat
          url_buf := (s.history.get ⟨idx.toNat, hlt⟩).url
          method_buf := (s.history.get ⟨idx.toNat, hlt⟩).method
          getParams_buf := (s.history.get ⟨idx.toNat, hlt⟩).getParams
          data_buf := (s.history.get ⟨idx.toNat, hlt⟩).data
          headers_buf := (s.history.get ⟨idx.toNat, hlt⟩).headers
          responseHeaders_buf := (s.history.get ⟨idx.toNat, hlt⟩).responseHeaders } := by
      unfold restoreRequest
      rw [if_neg hcond, hget]
    obtain ⟨p1, p2, p3, p4, p5, p6, p7, p8, p9⟩ := printBody_preserves
      { s with
        currentPopup := []
        historyIndex := idx.toNat
        url_buf := (s.history.get ⟨idx.toNat, hlt⟩).url
        method_buf := (s.history.get ⟨idx.toNat, hlt⟩).method
        getParams_buf := (s.history.get ⟨idx.toNat, hlt⟩).getParams
        data_buf := (s.history.get ⟨idx.toNat, hlt⟩).data
        headers_buf := (s.history.get ⟨idx.toNat, hlt⟩).headers
        responseHeaders_buf := (s.history.get ⟨idx.toNat, hlt⟩).responseHeaders }
    have hne : s.history ≠ [] := by
      intro he
      rw [he] at hlt
      cases hlt
    refine ⟨?_, ?_, ?_, ?_, ?_, ?_, ?_, ?_, ?_⟩
    · rw [hres, p1]
    · rw [hres, p2]
    · rw [hres, p3]
    · rw [hres, p4]
    · rw [hres, p5]
    · rw [hres, p6]
    · rw [hres, printBody_historyIndex]
    · rw [hres, printBody_history]
    · rw [hres]
      have hrr := printBody_render
        { s with
          currentPopup := []
          historyIndex := idx.toNat
          url_buf := (s.history.get ⟨idx.toNat, hlt⟩).url
          method_buf := (s.history.get ⟨idx.toNat, hlt⟩).method
          getParams_buf := (s.history.get ⟨idx.toNat, hlt⟩).getParams
          data_buf := (s.history.get ⟨idx.toNat, hlt⟩).data
          headers_buf := (s.history.get ⟨idx.toNat, hlt⟩).headers
          responseHeaders_buf := (s.history.get ⟨idx.toNat, hlt⟩).responseHeaders }
        (s.history.get ⟨idx.toNat, hlt⟩) hget hne
      rw [hrr]

/-- Every abort path of the submit pipeline leaves the history and cursor
unchanged; the success path appends exactly one entry and moves the cursor
to it. -/
theorem submit_history_shape (w : World) (s : AppState) :
    ((submitRequest w s).state.history = s.history ∧
      (submitRequest w s).state.historyIndex = s.historyIndex) ∨
    ((submitRequest w s).state.history.length = s.history.length + 1 ∧
      s.history <+: (submitRequest w s).state.history ∧
      (submitRequest w s).state.historyIndex = s.history.length) := by
  have hupd : ∀ (x : AppState) (v : Str),
      ({ x with responseHeaders_buf := v } : AppState).history = x.history :=
    fun _ _ => rfl
  have hupd2 : ∀ (x : AppState) (v : Str),
      ({ x with responseHeaders_buf := v } : AppState).historyIndex = x.historyIndex :=
    fun _ _ => rfl
  unfold submitRequest
  dsimp only
  repeat' split
  all_goals try (left; constructor <;> rfl)
  all_goals right
  all_goals refine ⟨?_, ?_, ?_⟩
  all_goals simp [hupd, hupd2, printBody_history, printBody_historyIndex]

/-- `restoreRequest` never changes the history store. -/
theorem restore_history (s : AppState) (idx : Int) :
    (restoreRequest s idx).history = s.history := by
  unfold restoreRequest
  split
  · rfl
  · split
    · rfl
    · rw [printBody_history]

/-- `restoreRequest` either leaves the cursor alone or moves it to a valid
index. -/
theorem restore_historyIndex_cases (s : AppState) (idx : Int) :
    (restoreRequest s idx).historyIndex = s.historyIndex ∨
    (restoreRequest s idx).historyIndex < s.history.length := by
  unfold restoreRequest
  split
  · left
    rfl
  · split
    · left
      rfl
    · right
      rw [printBody_historyIndex]
      rename_i rq heq
      have hb := List.get?_eq_some.mp heq
      obtain ⟨hlt, -⟩ := hb
      simpa using hlt

/-- C10: the initial state satisfies the history invariant; every
history-touching operation (submit, recall) preserves it and only ever
grows the history (the old history is a prefix of the new one); and under
the invariant, `PrintBody`'s unchecked index into a non-empty history is
always in bounds. -/
theorem history_invariant_preserved (cfg : Config) :
    histInvariant (initialApp cfg) ∧
    (∀ (op : AppOp) (s : AppState), histInvariant s →
      histInvariant (applyOp op s) ∧ s.history <+: (applyOp op s).history) ∧
    (∀ s : AppState, histInvariant s → s.history ≠ [] →
      (s.history.get? s.historyIndex).isSome = true) := by
  refine ⟨⟨fun _ => rfl, fun h => absurd rfl h⟩, ?_, ?_⟩
  · intro op s hinv
    cases op with
    | submit w =>
      show histInvariant (submitRequest w s).state ∧
        s.history <+: (submitRequest w s).state.history
      rcases submit_history_shape w s with ⟨hh, hi⟩ | ⟨hlen, hpre, hi⟩
      · refine ⟨⟨?_, ?_⟩, ?_⟩
        · intro he
          rw [hh] at he
          rw [hi]
          exact hinv.1 he
        · intro he
          rw [hh] at he ⊢
          rw [hi]
          exact hinv.2 he
        · rw [hh]
      · refine ⟨⟨?_, ?_⟩, hpre⟩
        · intro he
          rw [he] at hlen
          simp at hlen
        · intro _
          rw [hi, hlen]
          omega
    | recallAt idx =>
      show histInvariant (restoreRequest s idx) ∧
        s.history <+: (restoreRequest s idx).history
      have hh := restore_history s idx
      refine ⟨⟨?_, ?_⟩, by rw [hh]⟩
      · intro he
        rw [hh] at he
        rcases restore_historyIndex_cases s idx with hc | hc
        · rw [hc]
          exact hinv.1 he
        · rw [he] at hc
          cases hc
      · intro he
        rw [hh] at he ⊢
        rcases restore_historyIndex_cases s idx with hc | hc
        · rw [hc]
          exact hinv.2 he
        · exact hc
  · intro s hinv hne
    rw [List.get?_eq_get (hinv.2 hne)]
    rfl

/-- C3 witness: the spec scenario — header line `BadHeaderNoColon` aborts
the submit with the invalid-header message, empty history left unchanged,
nothing sent. -/
theorem submit_invalid_header_aborts_witness :
    ∃ line, line ∈ splitChar '\n' (trimSpace sInvalidHeader.headers_buf) ∧ line ≠ [] ∧
      splitOnce colonSpace line = none ∧
      (submitRequest wSample sInvalidHeader).outcome = .invalidHeader line ∧
      (submitRequest wSample sInvalidHeader).state.responseBody_buf =
        lchars (r"Invalid header: ") ++ line ∧
      (submitRequest wSample sInvalidHeader).state.history = sInvalidHeader.history ∧
      (submitRequest wSample sInvalidHeader).state.historyIndex =
        sInvalidHeader.historyIndex ∧
      (submitRequest wSample sInvalidHeader).sent = none :=
  submit_invalid_header_aborts wSample sInvalidHeader (lchars (r"BadHeaderNoColon"))
    (by rfl) (by rfl) (by decide) (by decide) (by decide)

/-- C4 witness: a refused connection is reported as `Response error:` and
the (empty) history and cursor stay unchanged. -/
theorem submit_transport_error_witness :
    (submitRequest wSample sTransport).outcome =
      .transportError (lchars (r"connection refused")) ∧
    (submitRequest wSample sTransport).state.responseBody_buf =
      lchars (r"Response error: ") ++ lchars (r"connection refused") ∧
    (submitRequest wSample sTransport).state.history = sTransport.history ∧
    (submitRequest wSample sTransport).state.historyIndex = sTransport.historyIndex :=
  submit_transport_error_preserves_history wSample sTransport
    (headerSet [] USER_AGENT_KEY []) none (lchars (r"connection refused"))
    (by rfl) (by rfl) (by rfl) (by rfl) (by rfl) (by rfl)

/-- C5 witness: the spec scenario — POST with form-encoded content type and
body `a=1\nb=2` hands the transport the body `a=1&b=2`. -/
theorem submit_urlencoded_body_witness :
    (submitRequest wSample sUrlenc).sent = some
      ⟨trimSpace sUrlenc.method_buf,
       wSample.finalUrl (trimSpace sUrlenc.url_buf)
         (replaceChar '\n' '&' (trimSpace sUrlenc.getParams_buf)),
       headerGet hdrsUrlenc HOST_KEY, hdrsUrlenc,
       some (.textBody (if headerGet hdrsUrlenc CT_KEY = URLENC_CT
         then replaceChar '\n' '&' (trimSpace sUrlenc.data_buf)
         else trimSpace sUrlenc.data_buf))⟩ ∧
    (if headerGet hdrsUrlenc CT_KEY = URLENC_CT
      then replaceChar '\n' '&' (trimSpace sUrlenc.data_buf)
      else trimSpace sUrlenc.data_buf) = ['a', '=', '1', '&', 'b', '=', '2'] :=
  ⟨submit_urlencoded_body wSample sUrlenc hdrsUrlenc
    (by rfl) (by rfl) (by rfl) (by decide) (by decide) (by rfl),
   by decide⟩

/-- C7 witness: with the single candidate `ab` suggested for the typed token
`a`, Enter inserts only the suffix `b`, leaving the typed prefix intact. -/
theorem autocomplete_enter_behavior_witness :
    (autocompleteEdit fSample innerSample true false ⟨[['b']], true⟩ ⟨['a'], 1⟩).2 =
      ⟨['a', 'b'], 2⟩ := by
  have h := autocomplete_enter_behavior fSample innerSample innerSample
    ⟨[], false⟩ ⟨[['b']], true⟩ ⟨[], 0⟩ ⟨['a'], 1⟩ (by decide) (by decide) rfl
  have h2 := h.2.1 (by decide)
  rw [h2]
  decide

/-- C8 witness: recalling index `-1` on a one-entry history is a no-op;
recalling index `0` restores the stored URL, sets the cursor to `0` and
leaves the history unchanged. -/
theorem restore_request_recall_witness :
    restoreRequest sHist (-1) = sHist ∧
    (restoreRequest sHist 0).url_buf = rqSample.url ∧
    (restoreRequest sHist 0).historyIndex = 0 ∧
    (restoreRequest sHist 0).history = sHist.history := by
  have h1 := (restore_request_recall sHist (-1)).1 (by decide)
  have h2 := (restore_request_recall sHist 0).2 (by decide) (by decide)
  exact ⟨h1, h2.1, h2.2.2.2.2.2.2.1, h2.2.2.2.2.2.2.2.1⟩

/-- C10 witness: the initial state satisfies the invariant and recalling
index `0` (a no-op on the empty history) preserves it and the history. -/
theorem history_invariant_preserved_witness :
    histInvariant (applyOp (.recallAt 0) (initialApp cfgSample)) ∧
    (initialApp cfgSample).history <+: (applyOp (.recallAt 0) (initialApp cfgSample)).history :=
  (history_invariant_preserved cfgSample).2.1 (.recallAt 0) (initialApp cfgSample)
    (history_invariant_preserved cfgSample).1

end Buzz
